import Mathlib

/-!
A shallow embedding of the pageserver `Tenant` subsystem
(`pageserver/src/tenant.rs`): the timeline map, the tenant state machine,
the atomic creation and branching protocol, garbage-collection planning,
the lineage loader, and timeline deletion.

Machine integers (`Lsn`, ids, `pg_version`) are modelled as `Nat`; the code
only compares, saturating-subtracts and aligns them, so no wraparound is
observable.  Filesystem state that the code inspects (uninit-mark files,
timeline directories, persisted metadata) is carried explicitly in the
`Tenant` record.  Locks are elided: operations are modelled as sequential
state transformers `Tenant → result × Tenant`, returning the final state
even on failure so that side effects of failed operations are observable.
Calls into the `Timeline` collaborator (`timeline.rs`, not among the
sources) are either recorded in the returned trace or modelled from the
spec, as noted on each definition.
-/

/-- Timeline identifiers: opaque 16-byte ids, modelled as naturals. -/
abbrev TimelineId := Nat

/-- Log sequence numbers: 64-bit monotonic WAL positions, modelled as naturals. -/
abbrev Lsn := Nat

/-- Modelled from the spec: `Lsn::align` lives in `libs/utils/src/lsn.rs`, which is
absent from the sources; §3 says it rounds the LSN up to WAL record alignment
(8 bytes). -/
def lsnAlign (l : Lsn) : Lsn := (l + 7) / 8 * 8

/-- `TimelineState` from `pageserver_api::models` (spec §3). -/
inductive TimelineState where
  | Active
  | Suspended
  | Paused
  | Broken
deriving DecidableEq, Repr

/-- `TenantState` from `pageserver_api::models` (spec §4.1): `Paused` is initial;
`Active` carries the `background_jobs_running` flag. -/
inductive TenantState where
  | Paused
  | Active (background_jobs_running : Bool)
  | Broken
deriving DecidableEq, Repr

/-- Error kinds surfaced by the tenant layer.  The Rust code returns
`anyhow` errors with message strings; each distinct failure site in
`tenant.rs` is given one constructor here (spec §7 names the kinds). -/
inductive TenantError where
  /-- "Cannot create/run ... on inactive tenant" (`ensure!(self.is_active())`). -/
  | NotActive
  /-- "Timeline ... already exists in pageserver's memory". -/
  | TimelineAlreadyExistsInMemory
  /-- "Timeline ... already exists, cannot create its uninit mark file". -/
  | TimelineDirExists
  /-- "Cannot branch off the timeline that's not present in pageserver" /
  "No ancestor ... found for timeline". -/
  | AncestorNotFound
  /-- "invalid start lsn ...: less than timeline ancestor lsn". -/
  | BeforeAncestorLsn
  /-- "invalid branch start lsn: less than latest GC cutoff". -/
  | AlreadyGced
  /-- "invalid branch start lsn: less than planned GC cutoff". -/
  | WouldBeGced
  /-- "Cannot delete timeline which has child timelines". -/
  | HasChildren
  /-- "timeline not found" in `delete_timeline`. -/
  | TimelineNotFound
  /-- "could not load tenant because some timelines are missing ancestors". -/
  | OrphanTimelines
  /-- "gc target timeline does not exist". -/
  | GcTargetNotFound
  /-- "Found freshly initialized timeline ... in the tenant map". -/
  | AlreadyInitialized
deriving DecidableEq, Repr

/-- The `gc_info` carried by each `Timeline` (spec §3: branchpoints plus
horizon/pitr cutoffs). -/
structure GcInfo where
  retain_lsns : List Lsn
  horizon_cutoff : Lsn
  pitr_cutoff : Lsn
deriving DecidableEq, Repr

/-- The fields of the `Timeline` collaborator that `tenant.rs` reads through the
contract of spec §6 (`get_last_record_lsn`, `get_last_record_rlsn`,
`get_ancestor_lsn`, `get_ancestor_timeline_id`, `get_latest_gc_cutoff_lsn`,
`get_disk_consistent_lsn`, `current_state`, `gc_info`, `initdb_lsn`,
`pg_version`). -/
structure Timeline where
  state : TimelineState
  last_record_lsn : Lsn
  prev_record_lsn : Lsn
  disk_consistent_lsn : Lsn
  ancestor_timeline_id : Option TimelineId
  ancestor_lsn : Lsn
  latest_gc_cutoff_lsn : Lsn
  initdb_lsn : Lsn
  pg_version : Nat
  gc_info : GcInfo
deriving DecidableEq, Repr

/-- Modelled from the spec: `Timeline::current_state` (contract in §6). -/
def Timeline.current_state (tl : Timeline) : TimelineState := tl.state

/-- Modelled from the spec: `Timeline::is_active` (contract in §6; a timeline
is active when its state is `Active`). -/
def Timeline.is_active (tl : Timeline) : Bool := tl.state = TimelineState.Active

/-- Modelled from the spec: `Timeline::set_state` (contract in §6). -/
def Timeline.set_state (tl : Timeline) (new_state : TimelineState) : Timeline :=
  { tl with state := new_state }

/-- `TimelineMetadata` (`tenant/metadata.rs`): the persisted per-timeline record.
Field order follows the positional arguments of `TimelineMetadata::new` as
called from `tenant.rs` and the field list of spec §3. -/
structure TimelineMetadata where
  disk_consistent_lsn : Lsn
  prev_record_lsn : Option Lsn
  ancestor_timeline : Option TimelineId
  ancestor_lsn : Lsn
  latest_gc_cutoff_lsn : Lsn
  initdb_lsn : Lsn
  pg_version : Nat
deriving DecidableEq, Repr

/-- Modelled from the spec: `Timeline::new` (contract in §6) builds the in-memory
handle from persisted metadata; the tenant code never reads back more from the
fresh handle than the metadata fields and the (not yet active) state, so the
record LSN pair starts from `disk_consistent_lsn`. -/
def timelineFromMetadata (md : TimelineMetadata) : Timeline where
  state := TimelineState.Suspended
  last_record_lsn := md.disk_consistent_lsn
  prev_record_lsn := md.prev_record_lsn.getD 0
  disk_consistent_lsn := md.disk_consistent_lsn
  ancestor_timeline_id := md.ancestor_timeline
  ancestor_lsn := md.ancestor_lsn
  latest_gc_cutoff_lsn := md.latest_gc_cutoff_lsn
  initdb_lsn := md.initdb_lsn
  pg_version := md.pg_version
  gc_info := ⟨[], 0, 0⟩

/-- Association-list lookup with decidable key equality, modelling
`HashMap::get` (first matching key wins; maps built by the code have
no duplicate keys). -/
def alookup (k : TimelineId) : List (TimelineId × α) → Option α
  | [] => none
  | p :: rest => if p.1 = k then some p.2 else alookup k rest

/-- Insert a key into a set of on-disk names unless already present
(`fs::File::create` and `create_dir_all` both succeed when the name exists). -/
def insertIfAbsent (k : TimelineId) (l : List TimelineId) : List TimelineId :=
  if k ∈ l then l else k :: l

/-- Overwrite-or-add for an association list, modelling writing a file
(`save_metadata`). -/
def aupsert (k : TimelineId) (v : α) : List (TimelineId × α) → List (TimelineId × α)
  | [] => [(k, v)]
  | p :: rest => if p.1 = k then (k, v) :: rest else p :: aupsert k v rest

/-- Remove the entry of a key from an association list (`HashMap::remove` /
`Entry::remove`). -/
def aremove (k : TimelineId) : List (TimelineId × α) → List (TimelineId × α)
  | [] => []
  | p :: rest => if p.1 = k then rest else p :: aremove k rest

/-- The `Tenant` record (`tenant.rs`), together with the pieces of the on-disk
tenant directory that the code under verification reads or writes:
which uninit-mark files and timeline directories exist, and the metadata
persisted per timeline.  The config, walredo and remote-index handles are
opaque to every claim and are omitted. -/
structure Tenant where
  state : TenantState
  timelines : List (TimelineId × Timeline)
  uninit_marks : List TimelineId
  timeline_dirs : List TimelineId
  disk_metadata : List (TimelineId × TimelineMetadata)
deriving DecidableEq, Repr

/-- `Tenant::current_state`: reads the watch cell. -/
def Tenant.current_state (t : Tenant) : TenantState := t.state

/-- `Tenant::is_active`: `matches!(current_state, Active { .. })`. -/
def Tenant.is_active (t : Tenant) : Bool :=
  match t.current_state with
  | TenantState.Active _ => true
  | _ => false

/-- `Tenant::should_run_tasks`: `Active { background_jobs_running: true }`. -/
def Tenant.should_run_tasks (t : Tenant) : Bool :=
  t.current_state = TenantState.Active true

/-- The per-timeline update performed by `Tenant::set_state`: every
not-`Broken` timeline is moved to `new_tl_state`. -/
def setNotBrokenTimelines (new_tl_state : TimelineState)
    (tls : List (TimelineId × Timeline)) : List (TimelineId × Timeline) :=
  tls.map fun p =>
    if p.2.current_state = TimelineState.Broken then p
    else (p.1, p.2.set_state new_tl_state)

/-- `Tenant::set_state`: idempotent on an equal state, rejected while `Broken`;
otherwise publishes the new state and moves every not-`Broken` timeline to
`Active` (for a new `Active` state, additionally spawning background loops —
an external side effect) or to `Suspended` (for `Paused`/`Broken`). -/
def Tenant.set_state (t : Tenant) (new_state : TenantState) : Tenant :=
  if t.current_state = new_state then t
  else if t.current_state = TenantState.Broken then t
  else
    match new_state with
    | TenantState.Active _ =>
        { t with state := new_state
                 timelines := setNotBrokenTimelines TimelineState.Active t.timelines }
    | _ =>
        { t with state := new_state
                 timelines := setNotBrokenTimelines TimelineState.Suspended t.timelines }

/-- `Tenant::activate`. -/
def Tenant.activate (t : Tenant) (enable_background_jobs : Bool) : Tenant :=
  t.set_state (TenantState.Active enable_background_jobs)

/-- `Tenant::get_timeline` with `active_only = false`: a plain map lookup. -/
def Tenant.get_timeline (t : Tenant) (timeline_id : TimelineId) : Option Timeline :=
  alookup timeline_id t.timelines

/-- `Tenant::create_timeline_uninit_mark`: bails if the timeline is already in
the map or its directory already exists, then creates the mark file.
Note that `fs::File::create` truncates an existing file rather than failing,
so a pre-existing mark file is not detected. -/
def Tenant.create_timeline_uninit_mark (t : Tenant) (timeline_id : TimelineId) :
    Except TenantError Tenant :=
  if (alookup timeline_id t.timelines).isSome then
    Except.error TenantError.TimelineAlreadyExistsInMemory
  else if timeline_id ∈ t.timeline_dirs then
    Except.error TenantError.TimelineDirExists
  else
    Except.ok { t with uninit_marks := insertIfAbsent timeline_id t.uninit_marks }

/-- `Drop for TimelineUninitMark`: if the timeline directory still exists the
mark is retained (to trigger cleanup on restart); otherwise the mark file is
removed. -/
def dropUninitMark (t : Tenant) (timeline_id : TimelineId) : Tenant :=
  if timeline_id ∈ t.timeline_dirs then t
  else { t with uninit_marks := t.uninit_marks.erase timeline_id }

/-- `Tenant::prepare_timeline` / `create_timeline_files`: creates the timeline
directory, persists the metadata, and builds the raw (uncommitted) `Timeline`
value. -/
def Tenant.prepare_timeline (t : Tenant) (new_timeline_id : TimelineId)
    (new_metadata : TimelineMetadata) : Tenant × Timeline :=
  ({ t with timeline_dirs := insertIfAbsent new_timeline_id t.timeline_dirs
            disk_metadata := aupsert new_timeline_id new_metadata t.disk_metadata },
   timelineFromMetadata new_metadata)

/-- `UninitializedTimeline::initialize_with_lock`: bails when the id is already
occupied in the map (the directory and mark are then left in place, as the
mark file is only retained while the directory exists); otherwise loads the
layer map (external), removes the uninit mark, sets the timeline `Active`,
inserts it into the map and launches the WAL receiver (external). -/
def Tenant.initialize_with_lock (t : Tenant) (timeline_id : TimelineId)
    (raw : Timeline) : Except TenantError Timeline × Tenant :=
  match alookup timeline_id t.timelines with
  | some _ => (Except.error TenantError.AlreadyInitialized, t)
  | none =>
      let new_timeline := raw.set_state TimelineState.Active
      (Except.ok new_timeline,
       { t with uninit_marks := t.uninit_marks.erase timeline_id
                timelines := (timeline_id, new_timeline) :: t.timelines })

/-- `Tenant::create_empty_timeline`: requires an active tenant, places the
uninit mark, and prepares the raw timeline with metadata
`(Lsn(0), None, None, Lsn(0), initdb_lsn, initdb_lsn, pg_version)`.
The returned raw timeline is not yet in the map (the caller commits it via
`initialize`). -/
def Tenant.create_empty_timeline (t : Tenant) (new_timeline_id : TimelineId)
    (initdb_lsn : Lsn) (pg_version : Nat) : Except TenantError Timeline × Tenant :=
  if ¬ t.is_active then (Except.error TenantError.NotActive, t)
  else
    match t.create_timeline_uninit_mark new_timeline_id with
    | Except.error e => (Except.error e, t)
    | Except.ok t1 =>
        let new_metadata : TimelineMetadata :=
          ⟨0, none, none, 0, initdb_lsn, initdb_lsn, pg_version⟩
        let (t2, raw) := t1.prepare_timeline new_timeline_id new_metadata
        (Except.ok raw, t2)

/-- `Tenant::branch_timeline`: places the uninit mark for `dst`, resolves `src`,
defaults `start_lsn` to the source's last record LSN, validates it against the
latest GC cutoff (via `Timeline::check_lsn_is_in_scope`, modelled from spec
§4.4 step 3: fail when `start_lsn < latest_gc_cutoff_lsn`) and against the
planned cutoff `min(pitr_cutoff, horizon_cutoff)` of the source's `gc_info`,
derives the child metadata and commits the child.  On a failed check the
mark handle is dropped, which removes the mark file again. -/
def Tenant.branch_timeline (t : Tenant) (src : TimelineId) (dst : TimelineId)
    (start_lsn : Option Lsn) : Except TenantError Timeline × Tenant :=
  match t.create_timeline_uninit_mark dst with
  | Except.error e => (Except.error e, t)
  | Except.ok t1 =>
      match alookup src t1.timelines with
      | none => (Except.error TenantError.AncestorNotFound, dropUninitMark t1 dst)
      | some src_timeline =>
          let latest_gc_cutoff_lsn := src_timeline.latest_gc_cutoff_lsn
          let start_lsn := start_lsn.getD src_timeline.last_record_lsn
          if start_lsn < latest_gc_cutoff_lsn then
            (Except.error TenantError.AlreadyGced, dropUninitMark t1 dst)
          else
            let planned_cutoff :=
              min src_timeline.gc_info.pitr_cutoff src_timeline.gc_info.horizon_cutoff
            if start_lsn < planned_cutoff then
              (Except.error TenantError.WouldBeGced, dropUninitMark t1 dst)
            else
              let dst_prev : Option Lsn :=
                if src_timeline.last_record_lsn = start_lsn then
                  some src_timeline.prev_record_lsn
                else none
              let metadata : TimelineMetadata :=
                ⟨start_lsn, dst_prev, some src, start_lsn,
                 src_timeline.latest_gc_cutoff_lsn, src_timeline.initdb_lsn,
                 src_timeline.pg_version⟩
              let (t2, raw) := t1.prepare_timeline dst metadata
              t2.initialize_with_lock dst raw

/-- `Tenant::bootstrap_timeline`: places the uninit mark, runs `initdb` in a
temporary directory and imports its output (external subprocess and I/O,
modelled as succeeding and yielding the control-file LSN `pgdata_lsn`),
builds the root metadata `(Lsn(0), None, None, Lsn(0), lsn, lsn, pg_version)`
with the aligned `pgdata_lsn`, and commits the timeline. -/
def Tenant.bootstrap_timeline (t : Tenant) (timeline_id : TimelineId)
    (pg_version : Nat) (pgdata_lsn : Lsn) : Except TenantError Timeline × Tenant :=
  match t.create_timeline_uninit_mark timeline_id with
  | Except.error e => (Except.error e, t)
  | Except.ok t1 =>
      let lsn := lsnAlign pgdata_lsn
      let new_metadata : TimelineMetadata := ⟨0, none, none, 0, lsn, lsn, pg_version⟩
      let (t2, raw) := t1.prepare_timeline timeline_id new_metadata
      t2.initialize_with_lock timeline_id raw

/-- `Tenant::create_timeline`: requires an active tenant; returns `Ok(None)` when
the caller-chosen id already exists; otherwise branches from the ancestor
(aligning an explicit start LSN, awaiting the WAL — external — and rejecting a
start LSN below the ancestor's own `ancestor_lsn`) or bootstraps a root
timeline, and finally activates the tenant with background jobs enabled.
`new_timeline_id` is the id after `unwrap_or_else(TimelineId::generate)`, and
`pgdata_lsn` stands for the control-file LSN an actual `initdb` run would
produce on the bootstrap path.  `create_timeline_loaded` is the
`let loaded_timeline = match ancestor_timeline_id { .. }` expression of the
source, named so the two halves can be reasoned about separately. -/
def Tenant.create_timeline_loaded (t : Tenant) (new_timeline_id : TimelineId)
    (ancestor_timeline_id : Option TimelineId) (ancestor_start_lsn : Option Lsn)
    (pg_version : Nat) (pgdata_lsn : Lsn) : Except TenantError Timeline × Tenant :=
  match ancestor_timeline_id with
  | some aid =>
      match alookup aid t.timelines with
      | none => (Except.error TenantError.AncestorNotFound, t)
      | some ancestor_timeline =>
          match ancestor_start_lsn with
          | some lsn =>
              let lsn := lsnAlign lsn
              -- ancestor_timeline.wait_lsn(lsn): external await, modelled as success
              if ancestor_timeline.ancestor_lsn > lsn then
                (Except.error TenantError.BeforeAncestorLsn, t)
              else t.branch_timeline aid new_timeline_id (some lsn)
          | none => t.branch_timeline aid new_timeline_id none
  | none => t.bootstrap_timeline new_timeline_id pg_version pgdata_lsn

def Tenant.create_timeline (t : Tenant) (new_timeline_id : TimelineId)
    (ancestor_timeline_id : Option TimelineId) (ancestor_start_lsn : Option Lsn)
    (pg_version : Nat) (pgdata_lsn : Lsn) :
    Except TenantError (Option Timeline) × Tenant :=
  if ¬ t.is_active then (Except.error TenantError.NotActive, t)
  else if (t.get_timeline new_timeline_id).isSome then (Except.ok none, t)
  else
    match t.create_timeline_loaded new_timeline_id ancestor_timeline_id
        ancestor_start_lsn pg_version pgdata_lsn with
    | (Except.error e, t1) => (Except.error e, t1)
    | (Except.ok tl, t1) => (Except.ok (some tl), t1.activate true)

/-- `Tenant::delete_timeline`: ensures no other timeline has `timeline_id` as
ancestor, locates the entry, pauses the timeline, takes its layer-removal
guard (external), removes the on-disk directory and drops the map entry. -/
def Tenant.delete_timeline (t : Tenant) (timeline_id : TimelineId) :
    Except TenantError Unit × Tenant :=
  let children_exist :=
    t.timelines.any fun p => p.2.ancestor_timeline_id = some timeline_id
  if children_exist then (Except.error TenantError.HasChildren, t)
  else
    match alookup timeline_id t.timelines with
    | none => (Except.error TenantError.TimelineNotFound, t)
    | some timeline =>
        let paused := timeline.set_state TimelineState.Paused
        let t1 := { t with timelines := aupsert timeline_id paused t.timelines }
        let t2 := { t1 with timeline_dirs := t1.timeline_dirs.erase timeline_id }
        (Except.ok (), { t2 with timelines := aremove timeline_id t2.timelines })

/-- `Tenant::checkpoint`: snapshots the timeline map and calls
`Timeline::checkpoint(Flush)` on every timeline (an external collaborator
call; the ids checkpointed are returned as the trace).  Note that this
operation performs no tenant-state precondition check. -/
def Tenant.checkpoint (t : Tenant) : Except TenantError (List TimelineId) × Tenant :=
  (Except.ok (t.timelines.map Prod.fst), t)

/-- `Tenant::compaction_iteration`: requires an active tenant, snapshots the
active timelines and calls `Timeline::compact` on each (external; the ids
compacted are returned as the trace). -/
def Tenant.compaction_iteration (t : Tenant) :
    Except TenantError (List TimelineId) × Tenant :=
  if ¬ t.is_active then (Except.error TenantError.NotActive, t)
  else (Except.ok ((t.timelines.filter fun p => p.2.is_active).map Prod.fst), t)

/-- One recorded call to `Timeline::update_gc_info(branchpoints, cutoff, pitr)`
(an external collaborator contract, spec §6); `pitr` durations are opaque and
modelled as naturals. -/
structure GcCall where
  timeline_id : TimelineId
  branchpoints : List Lsn
  cutoff : Lsn
  pitr : Nat
deriving DecidableEq, Repr

/-- The lexicographic order on `(TimelineId, Lsn)` pairs that
`BTreeSet<(TimelineId, Lsn)>` sorts by. -/
def pairLt (a b : TimelineId × Lsn) : Prop :=
  a.1 < b.1 ∨ (a.1 = b.1 ∧ a.2 < b.2)

/-- `BTreeSet::insert`: the set is modelled as a strictly `pairLt`-ascending
duplicate-free list; inserting an existing element is a no-op. -/
def btreeInsert (x : TimelineId × Lsn) :
    List (TimelineId × Lsn) → List (TimelineId × Lsn)
  | [] => [x]
  | y :: rest =>
      if x = y then y :: rest
      else if x.1 < y.1 ∨ (x.1 = y.1 ∧ x.2 < y.2) then x :: y :: rest
      else y :: btreeInsert x rest

/-- The per-timeline step of the branchpoint scan in
`Tenant::gc_iteration_internal`: an active timeline with an ancestor inserts
`(ancestor_id, ancestor_lsn)` into the `BTreeSet`, restricted to children of
the target when a target is given. -/
def gcBranchpointStep (target : Option TimelineId)
    (acc : List (TimelineId × Lsn)) (p : TimelineId × Timeline) :
    List (TimelineId × Lsn) :=
  if p.2.is_active then
    match p.2.ancestor_timeline_id with
    | some aid =>
        match target with
        | some tid =>
            if aid = tid then btreeInsert (aid, p.2.ancestor_lsn) acc else acc
        | none => btreeInsert (aid, p.2.ancestor_lsn) acc
    | none => acc
  else acc

/-- The `all_branchpoints` set scanned from the timeline map
(`BTreeSet<(TimelineId, Lsn)>`). -/
def gcCollectBranchpoints (target : Option TimelineId)
    (tls : List (TimelineId × Timeline)) : List (TimelineId × Lsn) :=
  tls.foldl (gcBranchpointStep target) []

/-- The range query `all_branchpoints.range((timeline_id, Lsn(0)) ..=
(timeline_id, Lsn(MAX))).map(|x| x.1)`: the LSNs recorded for one timeline, in
the ascending order the `BTreeSet` iterates them in. -/
def branchpointsFor (timeline_id : TimelineId) (s : List (TimelineId × Lsn)) :
    List Lsn :=
  (s.filter fun p => p.1 = timeline_id).map Prod.snd

/-- `Tenant::gc_iteration_internal`: bails when the target timeline does not
exist; scans the active timelines, collecting all branchpoints and the
candidate ids; then for each candidate (all active timelines, or just the
target) whose `last_record_lsn.checked_sub(horizon)` is representable, calls
`Timeline::update_gc_info(branchpoints, cutoff, pitr)` — recorded in the
returned trace, `update_gc_info` and the subsequent per-timeline
`Timeline::gc()` reclamation being external collaborator calls. -/
def Tenant.gc_iteration_internal (t : Tenant) (target_timeline_id : Option TimelineId)
    (horizon : Nat) (pitr : Nat) : Except TenantError (List GcCall) × Tenant :=
  let target_missing :=
    match target_timeline_id with
    | some tid => (alookup tid t.timelines).isNone
    | none => false
  if target_missing then (Except.error TenantError.GcTargetNotFound, t)
  else
    let all_branchpoints := gcCollectBranchpoints target_timeline_id t.timelines
    let timeline_ids := (t.timelines.filter fun p => p.2.is_active).map Prod.fst
    let gc_calls := timeline_ids.filterMap fun timeline_id =>
      match alookup timeline_id t.timelines with
      | none => none  -- unreachable: the ids were collected from this same map
      | some timeline =>
          let skip : Bool :=
            match target_timeline_id with
            | some tid => timeline_id != tid
            | none => false
          if skip then none
          else if horizon ≤ timeline.last_record_lsn then
            some ⟨timeline_id, branchpointsFor timeline_id all_branchpoints,
                  timeline.last_record_lsn - horizon, pitr⟩
          else none
    (Except.ok gc_calls, t)

/-- `Tenant::gc_iteration`: the `is_active` precondition around
`gc_iteration_internal` (the metrics wrapper and the `checkpoint_before_gc`
test hook act only on external collaborators). -/
def Tenant.gc_iteration (t : Tenant) (target_timeline_id : Option TimelineId)
    (horizon : Nat) (pitr : Nat) : Except TenantError (List GcCall) × Tenant :=
  if ¬ t.is_active then (Except.error TenantError.NotActive, t)
  else t.gc_iteration_internal target_timeline_id horizon pitr

/-- One entry of the lineage loader's working data: a timeline id with its
persisted metadata. -/
abbrev TsItem := TimelineId × TimelineMetadata

/-- Remove the entry of an ancestor id from the `later` index, returning its
children and the remaining index (`HashMap::remove` returning the owned
`Vec`). -/
def assocRemove (k : TimelineId) :
    List (TimelineId × List TsItem) → List TsItem × List (TimelineId × List TsItem)
  | [] => ([], [])
  | p :: rest =>
      if p.1 = k then (p.2, rest)
      else
        let (c, r) := assocRemove k rest
        (c, p :: r)

/-- Append a child under its ancestor in the `later` index
(`later.entry(ancestor_id).or_default().push(..)`). -/
def addChild (aid : TimelineId) (item : TsItem) :
    List (TimelineId × List TsItem) → List (TimelineId × List TsItem)
  | [] => [(aid, [item])]
  | p :: rest =>
      if p.1 = aid then (p.1, p.2 ++ [item]) :: rest
      else p :: addChild aid item rest

/-- All items parked in the `later` index. -/
def laterItems (later : List (TimelineId × List TsItem)) : List TsItem :=
  (later.map Prod.snd).flatten

/-- The first pass of `tree_sort_timelines`: timelines without an ancestor go to
`now`, the rest are indexed under their ancestor in `later`.  The map is
consumed in an arbitrary order (`HashMap` iteration); the list order stands in
for it. -/
def treeSortPartition : List TsItem → List TsItem × List (TimelineId × List TsItem)
  | [] => ([], [])
  | item :: rest =>
      let (now, later) := treeSortPartition rest
      match item.2.ancestor_timeline with
      | some aid => (now, addChild aid item later)
      | none => (item :: now, later)

/-- The draining loop of `tree_sort_timelines`: repeatedly take a ready timeline,
emit it, and move its children from `later` to the ready list; when the ready
list runs dry with `later` non-empty, the remaining timelines are orphans and
the whole sort fails.  Rust pops the `Vec` from its back; popping the list
head here is the mirror image, with the same orbit of possible outputs.  The
`fuel` bounds the recursion; one unit is consumed per emitted item, so any
`fuel` above the total item count is never exhausted. -/
def treeSortDrain (fuel : Nat) (now : List TsItem)
    (later : List (TimelineId × List TsItem)) : Except TenantError (List TsItem) :=
  match fuel with
  | 0 => Except.error TenantError.OrphanTimelines
  | fuel + 1 =>
      match now with
      | [] =>
          if later.isEmpty then Except.ok []
          else Except.error TenantError.OrphanTimelines
      | item :: rest =>
          let (children, later2) := assocRemove item.1 later
          match treeSortDrain fuel (children ++ rest) later2 with
          | Except.ok result => Except.ok (item :: result)
          | Except.error e => Except.error e

/-- `tree_sort_timelines` (`tenant.rs`): topologically sort the persisted
timelines so that every parent precedes its descendants, failing with the
orphan error when some ancestor is missing from the input. -/
def tree_sort_timelines (timelines : List TsItem) : Except TenantError (List TsItem) :=
  let (now, later) := treeSortPartition timelines
  treeSortDrain (timelines.length + 1) now later

/-- The parent-before-child ordering property: scanning the list left to right,
every timeline with an ancestor finds that ancestor among the previously seen
ids. -/
def ancestorsFirstFrom (seen : List TimelineId) : List TsItem → Bool
  | [] => true
  | item :: rest =>
      (match item.2.ancestor_timeline with
       | some aid => aid ∈ seen
       | none => true) &&
      ancestorsFirstFrom (item.1 :: seen) rest

/-! ## Helper lemmas -/

lemma lsnAlign_of_aligned (l : Lsn) (h : l % 8 = 0) : lsnAlign l = l := by
  obtain ⟨k, rfl⟩ := Nat.dvd_of_mod_eq_zero h
  unfold lsnAlign
  rw [Nat.mul_add_div (by norm_num)]
  norm_num [Nat.mul_comm]

lemma alookup_mem {α : Type} {l : List (TimelineId × α)} {k : TimelineId} {v : α}
    (h : alookup k l = some v) : (k, v) ∈ l := by
  induction l with
  | nil => simp [alookup] at h
  | cons p rest ih =>
      rw [alookup] at h
      split at h
      · next hk =>
          injection h with hv
          have hpk : p = (k, v) := by
            rw [Prod.ext_iff]
            exact ⟨hk, hv⟩
          rw [← hpk]
          exact List.mem_cons_self p rest
      · exact List.mem_cons_of_mem p (ih h)

lemma alookup_eq_of_mem_nodup {α : Type} {l : List (TimelineId × α)} {k : TimelineId}
    {v : α} (hnd : (l.map Prod.fst).Nodup) (h : (k, v) ∈ l) : alookup k l = some v := by
  induction l with
  | nil => cases h
  | cons p rest ih =>
      rw [List.map_cons, List.nodup_cons] at hnd
      rw [alookup]
      rcases List.mem_cons.mp h with heq | hmem
      · rw [← heq]
        simp
      · have hk : ¬ p.1 = k := by
          intro hk
          exact hnd.1 (hk ▸ List.mem_map_of_mem Prod.fst hmem)
        rw [if_neg hk]
        exact ih hnd.2 hmem

lemma alookup_eq_none (k : TimelineId) {α : Type} (l : List (TimelineId × α)) :
    alookup k l = none ↔ k ∉ l.map Prod.fst := by
  induction l with
  | nil => simp [alookup]
  | cons p rest ih =>
      rw [alookup]
      by_cases hk : p.1 = k
      · simp [hk]
      · rw [if_neg hk, ih, List.map_cons, List.mem_cons]
        have hkk : ¬ k = p.1 := fun hkk => hk hkk.symm
        tauto

/-! ## C3: Broken tenant state is absorbing -/

lemma set_state_of_broken (t : Tenant) (s : TenantState)
    (h : t.current_state = TenantState.Broken) : t.set_state s = t := by
  unfold Tenant.set_state
  rw [h]
  by_cases hs : TenantState.Broken = s
  · rw [if_pos hs]
  · rw [if_neg hs, if_pos rfl]

/-- C3: `Broken` is absorbing: for every tenant whose current state is `Broken`
and for every sequence of subsequent `set_state` calls with any arguments, the
state observed via `current_state` remains `Broken`. -/
theorem claim3_broken_is_absorbing (t : Tenant) (updates : List TenantState)
    (h : t.current_state = TenantState.Broken) :
    (updates.foldl Tenant.set_state t).current_state = TenantState.Broken := by
  induction updates generalizing t with
  | nil => exact h
  | cons s rest ih =>
      rw [List.foldl_cons, set_state_of_broken t s h]
      exact ih t h

def tenantBrokenW : Tenant := ⟨TenantState.Broken, [], [], [], []⟩

/-- Witness for C3: a concrete broken tenant stays `Broken` through a concrete
sequence of `set_state` calls. -/
theorem claim3_broken_is_absorbing_witness :
    (([TenantState.Paused, TenantState.Active true, TenantState.Active false].foldl
        Tenant.set_state tenantBrokenW).current_state) = TenantState.Broken :=
  claim3_broken_is_absorbing tenantBrokenW
    [TenantState.Paused, TenantState.Active true, TenantState.Active false] rfl

/-! ## C2: preconditions of the mutating operations -/

/-- C2 (amended): on a tenant that is not `Active`, the operations
`create_timeline`, `compaction_iteration` and `gc_iteration` fail with the
precondition error and leave the tenant untouched, while `checkpoint` performs
no tenant-state check at all and proceeds to fan out over every timeline. -/
theorem claim2_inactive_preconditions (t : Tenant) (h : t.is_active = false) :
    (∀ id aid lsn pg pgdata,
        t.create_timeline id aid lsn pg pgdata = (Except.error TenantError.NotActive, t))
    ∧ t.compaction_iteration = (Except.error TenantError.NotActive, t)
    ∧ (∀ target horizon pitr,
        t.gc_iteration target horizon pitr = (Except.error TenantError.NotActive, t))
    ∧ t.checkpoint = (Except.ok (t.timelines.map Prod.fst), t) := by
  refine ⟨fun id aid lsn pg pgdata => ?_, ?_, fun target horizon pitr => ?_, rfl⟩
  · simp [Tenant.create_timeline, h]
  · simp [Tenant.compaction_iteration, h]
  · simp [Tenant.gc_iteration, h]

def tlSuspendedW : Timeline :=
  ⟨TimelineState.Suspended, 100, 90, 100, none, 0, 0, 0, 14, ⟨[], 0, 0⟩⟩

def tenantPausedW : Tenant := ⟨TenantState.Paused, [(5, tlSuspendedW)], [], [5], []⟩

/-- Counterexample for C2: on a `Paused` tenant, `checkpoint` does not fail with
a precondition error; it succeeds and fans out over the timeline map. -/
theorem claim2_checkpoint_unguarded :
    tenantPausedW.is_active = false ∧
    tenantPausedW.checkpoint = (Except.ok [5], tenantPausedW) :=
  ⟨rfl, rfl⟩

/-- Witness for C2 (amended) at a concrete `Paused` tenant. -/
theorem claim2_inactive_preconditions_witness :
    tenantPausedW.create_timeline 7 none none 14 0
      = (Except.error TenantError.NotActive, tenantPausedW)
    ∧ tenantPausedW.gc_iteration none 0 0
      = (Except.error TenantError.NotActive, tenantPausedW) :=
  ⟨(claim2_inactive_preconditions tenantPausedW rfl).1 7 none none 14 0,
   (claim2_inactive_preconditions tenantPausedW rfl).2.2.1 none 0 0⟩

/-! ## C9: create_timeline with an already-used id -/

/-- C9: when the caller-specified id is already present in the timeline map of
an `Active` tenant, `create_timeline` returns success with no timeline
(`Ok(None)`) and performs no mutation at all: no uninit mark, no directory, no
metadata and no map entry are created. -/
theorem claim9_existing_id_returns_none (t : Tenant) (new_timeline_id : TimelineId)
    (aid : Option TimelineId) (lsn : Option Lsn) (pg : Nat) (pgdata : Lsn)
    (h_active : t.is_active = true)
    (h_present : (alookup new_timeline_id t.timelines).isSome = true) :
    t.create_timeline new_timeline_id aid lsn pg pgdata = (Except.ok none, t) := by
  simp [Tenant.create_timeline, Tenant.get_timeline, h_active, h_present]

/-- Witness for C9: a concrete active tenant with timeline id 5 present. -/
theorem claim9_existing_id_returns_none_witness :
    (Tenant.mk (TenantState.Active false) [(5, tlSuspendedW)] [] [5] []).create_timeline
        5 none none 14 0
      = (Except.ok none, Tenant.mk (TenantState.Active false) [(5, tlSuspendedW)] [] [5] []) :=
  claim9_existing_id_returns_none _ 5 none none 14 0 rfl rfl

/-! ## C7: delete_timeline safety -/

/-- C7: `delete_timeline` fails with the has-children error whenever some
timeline in the map has the argument as its ancestor, with no side effects
(the map, every timeline state, and the on-disk directories are unchanged);
and for an id absent from the map (and not referenced as an ancestor, matching
the order of the checks in the code) it fails with the not-found error, again
without side effects. -/
theorem claim7_delete_safety (t : Tenant) (timeline_id : TimelineId) :
    ((∃ p ∈ t.timelines, p.2.ancestor_timeline_id = some timeline_id) →
        t.delete_timeline timeline_id = (Except.error TenantError.HasChildren, t))
    ∧ ((∀ p ∈ t.timelines, p.2.ancestor_timeline_id ≠ some timeline_id) →
        alookup timeline_id t.timelines = none →
        t.delete_timeline timeline_id = (Except.error TenantError.TimelineNotFound, t)) := by
  constructor
  · rintro ⟨p, hp, hanc⟩
    have hany : (t.timelines.any fun q => q.2.ancestor_timeline_id = some timeline_id)
        = true := by
      rw [List.any_eq_true]
      exact ⟨p, hp, by simp [hanc]⟩
    simp [Tenant.delete_timeline, hany]
  · intro hnochild hnone
    have hany : (t.timelines.any fun q => q.2.ancestor_timeline_id = some timeline_id)
        = false := by
      rw [List.any_eq_false]
      intro p hp
      simp [hnochild p hp]
    simp [Tenant.delete_timeline, hany, hnone]

def tlRootW : Timeline :=
  ⟨TimelineState.Active, 100, 90, 100, none, 0, 0, 0, 14, ⟨[], 0, 0⟩⟩

def tlChildW : Timeline :=
  ⟨TimelineState.Active, 200, 190, 200, some 1, 60, 0, 0, 14, ⟨[], 0, 0⟩⟩

def tenantTreeW : Tenant :=
  ⟨TenantState.Active true, [(1, tlRootW), (2, tlChildW)], [], [1, 2], []⟩

/-- Witness for C7: deleting the parent of a concrete two-timeline tenant fails
with `HasChildren`, and deleting an absent id fails with the not-found error. -/
theorem claim7_delete_safety_witness :
    tenantTreeW.delete_timeline 1 = (Except.error TenantError.HasChildren, tenantTreeW)
    ∧ tenantTreeW.delete_timeline 9
      = (Except.error TenantError.TimelineNotFound, tenantTreeW) :=
  ⟨(claim7_delete_safety tenantTreeW 1).1 ⟨(2, tlChildW), by decide, by decide⟩,
   (claim7_delete_safety tenantTreeW 9).2 (by decide) (by decide)⟩

/-! ## C8: pre-existing uninit mark is not rejected -/

def tenantMarkLeftW : Tenant := ⟨TenantState.Active false, [], [7], [], []⟩

/-- C8 (code bug): on a tenant whose disk still carries the uninit-mark file for
id 7 (no timeline directory, no map entry), `create_empty_timeline(7, ..)`
succeeds instead of failing: `create_timeline_uninit_mark` checks only the map
and the timeline directory, and `fs::File::create` truncates a pre-existing
mark file rather than failing — contradicting the claim and the function's own
doc comment ("Bails, if ... the uninit mark file already exists"). -/
theorem claim8_preexisting_mark_not_rejected :
    7 ∈ tenantMarkLeftW.uninit_marks
    ∧ (tenantMarkLeftW.create_empty_timeline 7 0 14).1.toOption.isSome = true
    ∧ (tenantMarkLeftW.create_empty_timeline 7 0 14).2.uninit_marks = [7] :=
  ⟨by decide, rfl, rfl⟩

/-! ## C6: metadata written by a successful branch -/

lemma create_timeline_uninit_mark_ok (t : Tenant) (id : TimelineId) (t1 : Tenant)
    (h : t.create_timeline_uninit_mark id = Except.ok t1) :
    t1 = { t with uninit_marks := insertIfAbsent id t.uninit_marks }
    ∧ alookup id t.timelines = none ∧ id ∉ t.timeline_dirs := by
  unfold Tenant.create_timeline_uninit_mark at h
  split at h
  · simp at h
  · next h1 =>
      split at h
      · simp at h
      · next h2 =>
          injection h with h3
          exact ⟨h3.symm, Option.not_isSome_iff_eq_none.mp h1, h2⟩

lemma alookup_aupsert_self {α : Type} (k : TimelineId) (v : α)
    (l : List (TimelineId × α)) : alookup k (aupsert k v l) = some v := by
  induction l with
  | nil => simp [aupsert, alookup]
  | cons p rest ih =>
      rw [aupsert]
      by_cases hk : p.1 = k
      · rw [if_pos hk, alookup, if_pos rfl]
      · rw [if_neg hk, alookup, if_neg hk]
        exact ih

/-- C6: for every successful branch of destination `dst` from source `src` at an
explicit `start_lsn`, the metadata persisted for `dst` has
`ancestor_timeline = src`, `ancestor_lsn = start_lsn`,
`disk_consistent_lsn = start_lsn`, the source's `latest_gc_cutoff_lsn`,
`initdb_lsn` and `pg_version`, and carries the source's `prev_record_lsn`
exactly when `start_lsn` equals the source's `last_record_lsn`, being unset
otherwise. -/
theorem claim6_branch_metadata (t : Tenant) (src dst : TimelineId) (start_lsn : Lsn)
    (src_timeline : Timeline) (tl : Timeline) (t1 : Tenant)
    (h_src : alookup src t.timelines = some src_timeline)
    (h_run : t.branch_timeline src dst (some start_lsn) = (Except.ok tl, t1)) :
    alookup dst t1.disk_metadata = some
      ⟨start_lsn,
       if src_timeline.last_record_lsn = start_lsn
         then some src_timeline.prev_record_lsn else none,
       some src, start_lsn, src_timeline.latest_gc_cutoff_lsn,
       src_timeline.initdb_lsn, src_timeline.pg_version⟩ := by
  unfold Tenant.branch_timeline at h_run
  split at h_run
  · simp at h_run
  · next t2 hmark =>
      obtain ⟨ht2, hnone, hnodir⟩ := create_timeline_uninit_mark_ok t dst t2 hmark
      subst ht2
      simp only [h_src, Option.getD_some] at h_run
      split at h_run
      · simp at h_run
      · split at h_run
        · simp at h_run
        · unfold Tenant.prepare_timeline Tenant.initialize_with_lock at h_run
          simp only [hnone] at h_run
          rw [Prod.mk.injEq] at h_run
          obtain ⟨htl, ht1⟩ := h_run
          rw [← ht1]
          exact alookup_aupsert_self dst _ t.disk_metadata

/-- Witness for C6: a concrete successful branch of timeline 3 from timeline 1
at LSN 40. -/
theorem claim6_branch_metadata_witness :
    alookup 3 ((tenantTreeW.branch_timeline 1 3 (some 40)).2).disk_metadata
      = some ⟨40,
          if tlRootW.last_record_lsn = 40 then some tlRootW.prev_record_lsn else none,
          some 1, 40, tlRootW.latest_gc_cutoff_lsn, tlRootW.initdb_lsn,
          tlRootW.pg_version⟩ :=
  claim6_branch_metadata tenantTreeW 1 3 40 tlRootW _ _ rfl rfl

/-! ## C10: activation at the end of create_timeline -/

lemma dropUninitMark_state (t : Tenant) (id : TimelineId) :
    (dropUninitMark t id).state = t.state := by
  unfold dropUninitMark
  split <;> rfl

lemma initialize_with_lock_state (t : Tenant) (id : TimelineId) (raw : Timeline) :
    ((t.initialize_with_lock id raw).2).state = t.state := by
  unfold Tenant.initialize_with_lock
  split <;> rfl

lemma branch_timeline_state (t : Tenant) (src dst : TimelineId) (lsn : Option Lsn) :
    ((t.branch_timeline src dst lsn).2).state = t.state := by
  unfold Tenant.branch_timeline
  split
  · rfl
  · next t2 hmark =>
      obtain ⟨ht2, _, _⟩ := create_timeline_uninit_mark_ok t dst t2 hmark
      split
      · rw [dropUninitMark_state, ht2]
      · dsimp only
        split
        · rw [dropUninitMark_state, ht2]
        · split
          · rw [dropUninitMark_state, ht2]
          · simp only [Tenant.prepare_timeline]
            rw [initialize_with_lock_state, ht2]

lemma bootstrap_timeline_state (t : Tenant) (id : TimelineId) (pg : Nat)
    (pgdata : Lsn) : ((t.bootstrap_timeline id pg pgdata).2).state = t.state := by
  unfold Tenant.bootstrap_timeline
  split
  · rfl
  · next t2 hmark =>
      obtain ⟨ht2, _, _⟩ := create_timeline_uninit_mark_ok t id t2 hmark
      simp only [Tenant.prepare_timeline]
      rw [initialize_with_lock_state, ht2]

lemma create_timeline_loaded_state (t : Tenant) (id : TimelineId)
    (aid : Option TimelineId) (lsn : Option Lsn) (pg : Nat) (pgdata : Lsn) :
    ((t.create_timeline_loaded id aid lsn pg pgdata).2).state = t.state := by
  unfold Tenant.create_timeline_loaded
  cases aid with
  | none => exact bootstrap_timeline_state t id pg pgdata
  | some a =>
      cases h : alookup a t.timelines with
      | none => simp only [h]
      | some anc =>
          cases lsn with
          | none =>
              simp only [h]
              exact branch_timeline_state t a id none
          | some l =>
              simp only [h]
              split
              · rfl
              · exact branch_timeline_state t a id (some (lsnAlign l))

lemma mem_setNotBrokenTimelines (st : TimelineState) (l : List (TimelineId × Timeline))
    (p : TimelineId × Timeline) (hp : p ∈ setNotBrokenTimelines st l) :
    p.2.state = TimelineState.Broken ∨ p.2.state = st := by
  rcases List.mem_map.mp hp with ⟨q, _, rfl⟩
  split
  · next hb => exact Or.inl hb
  · exact Or.inr rfl

lemma activate_true_spec (t : Tenant) (b : Bool) (h : t.state = TenantState.Active b) :
    (t.activate true).state = TenantState.Active true
    ∧ (t.state ≠ TenantState.Active true →
        ∀ p ∈ (t.activate true).timelines, p.2.state ≠ TimelineState.Broken →
          p.2.state = TimelineState.Active) := by
  unfold Tenant.activate Tenant.set_state Tenant.current_state
  rw [h]
  cases b with
  | true =>
      rw [if_pos rfl]
      exact ⟨h, fun hne => absurd rfl hne⟩
  | false =>
      rw [if_neg (by decide), if_neg (by decide)]
      refine ⟨rfl, fun _ p hp hnb => ?_⟩
      rcases mem_setNotBrokenTimelines TimelineState.Active t.timelines p hp with hb | ha
      · exact absurd hb hnb
      · exact ha

/-- C10 (amended): every successful `create_timeline` call ends by calling
`activate(true)`, so the final tenant state is `Active` with
`background_jobs_running = true`; and whenever the previous state differed
from `Active{bg: true}` (in particular when the tenant was `Active` with
background jobs disabled), this also sets every non-`Broken` timeline to
`Active`.  When the tenant was already `Active{bg: true}` the `set_state`
call hits the idempotent arm and existing timeline states are untouched. -/
theorem claim10_create_activates (t : Tenant) (new_timeline_id : TimelineId)
    (aid : Option TimelineId) (lsn : Option Lsn) (pg : Nat) (pgdata : Lsn)
    (tl : Timeline) (t1 : Tenant)
    (h_run : t.create_timeline new_timeline_id aid lsn pg pgdata
        = (Except.ok (some tl), t1)) :
    t1.current_state = TenantState.Active true
    ∧ (t.current_state ≠ TenantState.Active true →
        ∀ p ∈ t1.timelines, p.2.current_state ≠ TimelineState.Broken →
          p.2.current_state = TimelineState.Active) := by
  unfold Tenant.create_timeline at h_run
  split at h_run
  · simp at h_run
  · next h_act =>
      have h_active : t.is_active = true := of_not_not h_act
      split at h_run
      · simp at h_run
      · split at h_run
        · simp at h_run
        · next tl2 t2 heq =>
            rw [Prod.mk.injEq] at h_run
            obtain ⟨_, ht1⟩ := h_run
            have hstate : t2.state = t.state := by
              have h2 : (t.create_timeline_loaded new_timeline_id aid lsn pg
                  pgdata).2 = t2 := congrArg Prod.snd heq
              rw [← h2]
              exact create_timeline_loaded_state t new_timeline_id aid lsn pg pgdata
            obtain ⟨b, hbeq⟩ : ∃ b, t.state = TenantState.Active b := by
              unfold Tenant.is_active Tenant.current_state at h_active
              cases ht : t.state with
              | Active b => exact ⟨b, rfl⟩
              | Paused => rw [ht] at h_active; simp at h_active
              | Broken => rw [ht] at h_active; simp at h_active
            obtain ⟨hact1, hact2⟩ := activate_true_spec t2 b (hstate.trans hbeq)
            rw [← ht1]
            refine ⟨hact1, fun hne => hact2 ?_⟩
            rw [hstate]
            exact hne

def tlPausedW : Timeline :=
  ⟨TimelineState.Paused, 100, 90, 100, none, 0, 0, 0, 14, ⟨[], 0, 0⟩⟩

def tenantBgW : Tenant := ⟨TenantState.Active true, [(5, tlPausedW)], [], [], []⟩

/-- Counterexample for C10: on a tenant already in `Active{bg: true}` holding a
`Paused` (hence non-`Broken`) timeline, a successful `create_timeline` leaves
that timeline `Paused` — the final `activate(true)` hits the idempotent
equal-state arm of `set_state` and does not set the timeline to `Active`. -/
theorem claim10_idempotent_activate_skips_timelines :
    (tenantBgW.create_timeline 7 none none 14 16).1.toOption.isSome = true
    ∧ (alookup 5 ((tenantBgW.create_timeline 7 none none 14 16).2).timelines).map
        Timeline.current_state = some TimelineState.Paused
    ∧ TimelineState.Paused ≠ TimelineState.Broken
    ∧ TimelineState.Paused ≠ TimelineState.Active :=
  ⟨rfl, rfl, by decide, by decide⟩

def tenantBgOffW : Tenant :=
  ⟨TenantState.Active false, [(5, tlSuspendedW)], [], [5], []⟩

/-- Witness for C10 (amended): a concrete successful bootstrap on a tenant in
`Active{bg: false}` ends in `Active{bg: true}` with every non-`Broken`
timeline set to `Active`. -/
theorem claim10_create_activates_witness :
    ((tenantBgOffW.create_timeline 7 none none 14 16).2).current_state
        = TenantState.Active true
    ∧ (∀ p ∈ ((tenantBgOffW.create_timeline 7 none none 14 16).2).timelines,
        p.2.current_state ≠ TimelineState.Broken →
        p.2.current_state = TimelineState.Active) :=
  ⟨(claim10_create_activates tenantBgOffW 7 none none 14 16 _ _ rfl).1,
   (claim10_create_activates tenantBgOffW 7 none none 14 16 _ _ rfl).2 (by decide)⟩

/-! ## C1: branching respects retention -/

/-- C1: for a fresh destination on an active tenant and an explicit, WAL-aligned
`start_lsn` (spec §4.4 step 3 assumes the caller has aligned it): if the
source's own `ancestor_lsn` exceeds `start_lsn` the operation fails with the
`BeforeAncestorLsn` error; otherwise if `start_lsn` is below the source's
`latest_gc_cutoff_lsn` it fails with `AlreadyGced` (via
`check_lsn_is_in_scope`, modelled from the spec); otherwise if `start_lsn` is
below the planned cutoff `min(pitr_cutoff, horizon_cutoff)` of the source's
`gc_info` it fails with `WouldBeGced` — the three checks in the order the code
performs them — and in every one of these cases no child timeline is inserted
into the map. -/
theorem claim1_branch_respects_retention (t : Tenant) (src dst : TimelineId)
    (start_lsn : Lsn) (pg : Nat) (pgdata : Lsn) (src_timeline : Timeline)
    (h_active : t.is_active = true)
    (h_dst_map : alookup dst t.timelines = none)
    (h_dst_dir : dst ∉ t.timeline_dirs)
    (h_src : alookup src t.timelines = some src_timeline)
    (h_aligned : start_lsn % 8 = 0) :
    (src_timeline.ancestor_lsn > start_lsn →
        t.create_timeline dst (some src) (some start_lsn) pg pgdata
          = (Except.error TenantError.BeforeAncestorLsn, t))
    ∧ (src_timeline.ancestor_lsn ≤ start_lsn →
        start_lsn < src_timeline.latest_gc_cutoff_lsn →
        (t.create_timeline dst (some src) (some start_lsn) pg pgdata).1
            = Except.error TenantError.AlreadyGced
        ∧ (t.create_timeline dst (some src) (some start_lsn) pg pgdata).2.timelines
            = t.timelines)
    ∧ (src_timeline.ancestor_lsn ≤ start_lsn →
        src_timeline.latest_gc_cutoff_lsn ≤ start_lsn →
        start_lsn < min src_timeline.gc_info.pitr_cutoff
            src_timeline.gc_info.horizon_cutoff →
        (t.create_timeline dst (some src) (some start_lsn) pg pgdata).1
            = Except.error TenantError.WouldBeGced
        ∧ (t.create_timeline dst (some src) (some start_lsn) pg pgdata).2.timelines
            = t.timelines) := by
  have halign : lsnAlign start_lsn = start_lsn := lsnAlign_of_aligned start_lsn h_aligned
  refine ⟨fun hgt => ?_, fun hle hgc => ?_, fun hle hgc hpl => ?_⟩
  · simp [Tenant.create_timeline, Tenant.create_timeline_loaded, Tenant.get_timeline,
      h_active, h_dst_map, h_src, halign, hgt]
  · have hngt : ¬ src_timeline.ancestor_lsn > start_lsn := not_lt.mpr hle
    constructor <;>
      simp [Tenant.create_timeline, Tenant.create_timeline_loaded, Tenant.get_timeline,
        Tenant.branch_timeline, Tenant.create_timeline_uninit_mark, dropUninitMark,
        h_active, h_dst_map, h_dst_dir, h_src, halign, hngt, hgc]
  · have hngt : ¬ src_timeline.ancestor_lsn > start_lsn := not_lt.mpr hle
    have hngc : ¬ start_lsn < src_timeline.latest_gc_cutoff_lsn := not_lt.mpr hgc
    constructor <;>
      simp [Tenant.create_timeline, Tenant.create_timeline_loaded, Tenant.get_timeline,
        Tenant.branch_timeline, Tenant.create_timeline_uninit_mark, dropUninitMark,
        h_active, h_dst_map, h_dst_dir, h_src, halign, hngt, hngc, hpl]

def stlBranchW : Timeline :=
  ⟨TimelineState.Active, 100, 90, 100, none, 16, 32, 8, 14, ⟨[], 48, 40⟩⟩

def tenantBranchW : Tenant := ⟨TenantState.Active false, [(1, stlBranchW)], [], [1], []⟩

/-- Witness for C1: on a concrete source (ancestor_lsn 16, latest GC cutoff 32,
planned cutoff min(40, 48) = 40), branching at LSNs 8, 24 and 32 hits the
three error cases in turn. -/
theorem claim1_branch_respects_retention_witness :
    tenantBranchW.create_timeline 2 (some 1) (some 8) 14 0
        = (Except.error TenantError.BeforeAncestorLsn, tenantBranchW)
    ∧ (tenantBranchW.create_timeline 2 (some 1) (some 24) 14 0).1
        = Except.error TenantError.AlreadyGced
    ∧ (tenantBranchW.create_timeline 2 (some 1) (some 32) 14 0).1
        = Except.error TenantError.WouldBeGced :=
  ⟨(claim1_branch_respects_retention tenantBranchW 1 2 8 14 0 stlBranchW rfl rfl
      (by decide) rfl (by decide)).1 (by decide),
   ((claim1_branch_respects_retention tenantBranchW 1 2 24 14 0 stlBranchW rfl rfl
      (by decide) rfl (by decide)).2.1 (by decide) (by decide)).1,
   ((claim1_branch_respects_retention tenantBranchW 1 2 32 14 0 stlBranchW rfl rfl
      (by decide) rfl (by decide)).2.2 (by decide) (by decide) (by decide)).1⟩

/-! ## C5: GC planning -/

lemma pairLt_trans {x y z : TimelineId × Lsn} (h1 : pairLt x y) (h2 : pairLt y z) :
    pairLt x z := by
  unfold pairLt at h1 h2 ⊢
  rcases h1 with h1 | ⟨h1a, h1b⟩ <;> rcases h2 with h2 | ⟨h2a, h2b⟩
  · exact Or.inl (Nat.lt_trans h1 h2)
  · exact Or.inl (lt_of_lt_of_eq h1 h2a)
  · exact Or.inl (lt_of_eq_of_lt h1a h2)
  · exact Or.inr ⟨h1a.trans h2a, Nat.lt_trans h1b h2b⟩

lemma pairLt_of_not (x y : TimelineId × Lsn) (hne : ¬ x = y) (hnlt : ¬ pairLt x y) :
    pairLt y x := by
  unfold pairLt at hnlt ⊢
  rcases Nat.lt_trichotomy x.1 y.1 with h | h | h
  · exact absurd (Or.inl h) hnlt
  · rcases Nat.lt_trichotomy x.2 y.2 with h2 | h2 | h2
    · exact absurd (Or.inr ⟨h, h2⟩) hnlt
    · exact absurd (Prod.ext_iff.mpr ⟨h, h2⟩) hne
    · exact Or.inr ⟨h.symm, h2⟩
  · exact Or.inl h

lemma mem_btreeInsert (x y : TimelineId × Lsn) (l : List (TimelineId × Lsn)) :
    y ∈ btreeInsert x l ↔ y = x ∨ y ∈ l := by
  induction l with
  | nil => simp [btreeInsert]
  | cons z rest ih =>
      rw [btreeInsert]
      by_cases hxz : x = z
      · rw [if_pos hxz]
        subst hxz
        simp only [List.mem_cons]
        tauto
      · rw [if_neg hxz]
        by_cases hlt : x.1 < z.1 ∨ (x.1 = z.1 ∧ x.2 < z.2)
        · rw [if_pos hlt]
          simp [List.mem_cons]
        · rw [if_neg hlt]
          simp only [List.mem_cons, ih]
          tauto

lemma pairwise_btreeInsert (x : TimelineId × Lsn) (l : List (TimelineId × Lsn))
    (hl : l.Pairwise pairLt) : (btreeInsert x l).Pairwise pairLt := by
  induction l with
  | nil => simp [btreeInsert, List.pairwise_cons]
  | cons z rest ih =>
      rw [List.pairwise_cons] at hl
      obtain ⟨hz, hrest⟩ := hl
      rw [btreeInsert]
      by_cases hxz : x = z
      · rw [if_pos hxz]
        exact List.pairwise_cons.mpr ⟨hz, hrest⟩
      · rw [if_neg hxz]
        by_cases hlt : x.1 < z.1 ∨ (x.1 = z.1 ∧ x.2 < z.2)
        · rw [if_pos hlt]
          refine List.pairwise_cons.mpr ⟨?_, List.pairwise_cons.mpr ⟨hz, hrest⟩⟩
          intro b hb
          rcases List.mem_cons.mp hb with rfl | hb2
          · exact hlt
          · exact pairLt_trans hlt (hz b hb2)
        · rw [if_neg hlt]
          refine List.pairwise_cons.mpr ⟨?_, ih hrest⟩
          intro b hb
          rcases (mem_btreeInsert x b rest).mp hb with hbx | hb2
          · rw [hbx]
            exact pairLt_of_not x z hxz hlt
          · exact hz b hb2

lemma mem_gcBranchpointStep (target : Option TimelineId)
    (acc : List (TimelineId × Lsn)) (p : TimelineId × Timeline)
    (x : TimelineId × Lsn) :
    x ∈ gcBranchpointStep target acc p ↔
      x ∈ acc ∨ (p.2.is_active = true ∧ p.2.ancestor_timeline_id = some x.1 ∧
        p.2.ancestor_lsn = x.2 ∧ ∀ tid, target = some tid → x.1 = tid) := by
  unfold gcBranchpointStep
  cases ha : p.2.is_active with
  | false => simp [ha]
  | true =>
      cases hanc : p.2.ancestor_timeline_id with
      | none => simp [ha, hanc]
      | some aid =>
          cases target with
          | none =>
              simp only [ha, hanc, if_true, Option.some.injEq, true_and,
                mem_btreeInsert]
              constructor
              · rintro (rfl | hacc)
                · exact Or.inr ⟨rfl, rfl, fun tid h => nomatch h⟩
                · exact Or.inl hacc
              · rintro (hacc | ⟨haid, hlsn, -⟩)
                · exact Or.inr hacc
                · left
                  rw [Prod.ext_iff]
                  exact ⟨haid.symm, hlsn.symm⟩
          | some tid =>
              by_cases he : aid = tid
              · subst he
                simp only [ha, hanc, if_true, if_pos rfl, Option.some.injEq,
                  true_and, mem_btreeInsert]
                constructor
                · rintro (rfl | hacc)
                  · exact Or.inr ⟨rfl, rfl, fun tid2 h2 => h2⟩
                  · exact Or.inl hacc
                · rintro (hacc | ⟨haid, hlsn, -⟩)
                  · exact Or.inr hacc
                  · left
                    rw [Prod.ext_iff]
                    exact ⟨haid.symm, hlsn.symm⟩
              · simp only [ha, hanc, if_true, if_neg he, Option.some.injEq,
                  true_and]
                constructor
                · exact Or.inl
                · rintro (hacc | ⟨haid, -, hall⟩)
                  · exact hacc
                  · exact absurd (haid.trans (hall tid rfl)) he

lemma pairwise_gcBranchpointStep (target : Option TimelineId)
    (acc : List (TimelineId × Lsn)) (p : TimelineId × Timeline)
    (h : acc.Pairwise pairLt) : (gcBranchpointStep target acc p).Pairwise pairLt := by
  unfold gcBranchpointStep
  cases ha : p.2.is_active with
  | false => simpa [ha] using h
  | true =>
      cases hanc : p.2.ancestor_timeline_id with
      | none => simpa [ha, hanc] using h
      | some aid =>
          cases target with
          | none =>
              simp only [ha, hanc, if_true]
              exact pairwise_btreeInsert _ _ h
          | some tid =>
              by_cases he : aid = tid
              · simp only [ha, hanc, if_true, if_pos he]
                exact pairwise_btreeInsert _ _ h
              · simpa [ha, hanc, if_neg he] using h

lemma mem_gcCollectBranchpoints_aux (target : Option TimelineId)
    (tls : List (TimelineId × Timeline)) (acc : List (TimelineId × Lsn))
    (x : TimelineId × Lsn) :
    x ∈ tls.foldl (gcBranchpointStep target) acc ↔
      x ∈ acc ∨ ∃ p ∈ tls, p.2.is_active = true ∧
        p.2.ancestor_timeline_id = some x.1 ∧ p.2.ancestor_lsn = x.2 ∧
        ∀ tid, target = some tid → x.1 = tid := by
  induction tls generalizing acc with
  | nil => simp
  | cons p rest ih =>
      rw [List.foldl_cons, ih, mem_gcBranchpointStep]
      constructor
      · rintro ((hacc | hp) | ⟨q, hq, hcond⟩)
        · exact Or.inl hacc
        · exact Or.inr ⟨p, List.mem_cons_self p rest, hp⟩
        · exact Or.inr ⟨q, List.mem_cons_of_mem p hq, hcond⟩
      · rintro (hacc | ⟨q, hq, hcond⟩)
        · exact Or.inl (Or.inl hacc)
        · rcases List.mem_cons.mp hq with rfl | hq2
          · exact Or.inl (Or.inr hcond)
          · exact Or.inr ⟨q, hq2, hcond⟩

lemma mem_gcCollectBranchpoints (target : Option TimelineId)
    (tls : List (TimelineId × Timeline)) (x : TimelineId × Lsn) :
    x ∈ gcCollectBranchpoints target tls ↔
      ∃ p ∈ tls, p.2.is_active = true ∧ p.2.ancestor_timeline_id = some x.1 ∧
        p.2.ancestor_lsn = x.2 ∧ ∀ tid, target = some tid → x.1 = tid := by
  rw [gcCollectBranchpoints, mem_gcCollectBranchpoints_aux]
  simp

lemma pairwise_gcCollectBranchpoints (target : Option TimelineId)
    (tls : List (TimelineId × Timeline)) :
    (gcCollectBranchpoints target tls).Pairwise pairLt := by
  unfold gcCollectBranchpoints
  have haux : ∀ acc : List (TimelineId × Lsn), acc.Pairwise pairLt →
      (tls.foldl (gcBranchpointStep target) acc).Pairwise pairLt := by
    induction tls with
    | nil => intro acc h; simpa using h
    | cons p rest ih =>
        intro acc h
        rw [List.foldl_cons]
        exact ih _ (pairwise_gcBranchpointStep target acc p h)
  exact haux [] List.Pairwise.nil

lemma mem_branchpointsFor (timeline_id : TimelineId) (s : List (TimelineId × Lsn))
    (l : Lsn) : l ∈ branchpointsFor timeline_id s ↔ (timeline_id, l) ∈ s := by
  unfold branchpointsFor
  rw [List.mem_map]
  constructor
  · rintro ⟨⟨a, b⟩, hmem, hb⟩
    rcases List.mem_filter.mp hmem with ⟨hmem2, hfst⟩
    dsimp at hb hfst
    have hfst2 : a = timeline_id := of_decide_eq_true hfst
    subst hfst2
    subst hb
    exact hmem2
  · intro h
    exact ⟨(timeline_id, l), List.mem_filter.mpr ⟨h, by simp⟩, rfl⟩

lemma sorted_branchpointsFor (timeline_id : TimelineId)
    (s : List (TimelineId × Lsn)) (hs : s.Pairwise pairLt) :
    (branchpointsFor timeline_id s).Sorted (· ≤ ·) := by
  unfold branchpointsFor
  rw [List.Sorted, List.pairwise_map]
  have hf : (s.filter fun p => p.1 = timeline_id).Pairwise pairLt :=
    hs.sublist (List.filter_sublist s)
  refine hf.imp_of_mem ?_
  intro a b ha hb hr
  have hfa : a.1 = timeline_id := of_decide_eq_true (List.mem_filter.mp ha).2
  have hfb : b.1 = timeline_id := of_decide_eq_true (List.mem_filter.mp hb).2
  rcases hr with h | ⟨-, h⟩
  · rw [hfa, hfb] at h
    exact absurd h (lt_irrefl timeline_id)
  · exact Nat.le_of_lt h

/-- C5: for every `gc_iteration(target, horizon, pitr)` run that returns
successfully: the branchpoint set contains exactly the pairs
`(ancestor_id, ancestor_lsn)` of active timelines that have an ancestor
(restricted to children of `target` when a target is given); every recorded
`update_gc_info` call carries its timeline's branchpoint LSNs as a sorted
list whose members are exactly that timeline's entries of the branchpoint
set, together with `cutoff = last_record_lsn - horizon` and `pitr`; every
candidate (an active timeline, restricted to the target when given) whose
`last_record_lsn.checked_sub(horizon)` does not underflow receives exactly
such a call; candidates with an unrepresentable cutoff receive none; and
the tenant itself is unchanged. -/
theorem claim5_gc_planning (t : Tenant) (target : Option TimelineId)
    (horizon pitr : Nat) (calls : List GcCall) (t1 : Tenant)
    (h_nodup : (t.timelines.map Prod.fst).Nodup)
    (h_run : t.gc_iteration target horizon pitr = (Except.ok calls, t1)) :
    (∀ aid alsn, (aid, alsn) ∈ gcCollectBranchpoints target t.timelines ↔
        ∃ id tl, (id, tl) ∈ t.timelines ∧ tl.is_active = true ∧
          tl.ancestor_timeline_id = some aid ∧ tl.ancestor_lsn = alsn ∧
          ∀ tid, target = some tid → aid = tid)
    ∧ (∀ c ∈ calls, c.branchpoints.Sorted (· ≤ ·))
    ∧ (∀ c ∈ calls, ∀ l : Lsn, l ∈ c.branchpoints ↔
        (c.timeline_id, l) ∈ gcCollectBranchpoints target t.timelines)
    ∧ (∀ id tl, alookup id t.timelines = some tl → tl.is_active = true →
        (∀ tid, target = some tid → id = tid) → horizon ≤ tl.last_record_lsn →
        (⟨id, branchpointsFor id (gcCollectBranchpoints target t.timelines),
          tl.last_record_lsn - horizon, pitr⟩ : GcCall) ∈ calls)
    ∧ (∀ c ∈ calls, ∃ tl, alookup c.timeline_id t.timelines = some tl ∧
        tl.is_active = true ∧ (∀ tid, target = some tid → c.timeline_id = tid) ∧
        horizon ≤ tl.last_record_lsn ∧
        c.branchpoints = branchpointsFor c.timeline_id
            (gcCollectBranchpoints target t.timelines) ∧
        c.cutoff = tl.last_record_lsn - horizon ∧ c.pitr = pitr)
    ∧ t1 = t := by
  unfold Tenant.gc_iteration at h_run
  split at h_run
  · simp at h_run
  · unfold Tenant.gc_iteration_internal at h_run
    dsimp only at h_run
    split at h_run
    · simp at h_run
    · rw [Prod.mk.injEq] at h_run
      obtain ⟨hok, ht⟩ := h_run
      injection hok with hcalls
      subst ht
      have hchar : ∀ c ∈ calls, ∃ tl, alookup c.timeline_id t.timelines = some tl ∧
          tl.is_active = true ∧ (∀ tid, target = some tid → c.timeline_id = tid) ∧
          horizon ≤ tl.last_record_lsn ∧
          c.branchpoints = branchpointsFor c.timeline_id
              (gcCollectBranchpoints target t.timelines) ∧
          c.cutoff = tl.last_record_lsn - horizon ∧ c.pitr = pitr := by
        intro c hc
        rw [← hcalls] at hc
        rcases List.mem_filterMap.mp hc with ⟨id, hid, hf⟩
        cases halook : alookup id t.timelines with
        | none => simp [halook] at hf
        | some timeline =>
            simp only [halook] at hf
            split at hf
            · simp at hf
            · next hskip =>
                split at hf
                · next hcut =>
                    injection hf with hcc
                    subst hcc
                    have hactive : timeline.is_active = true := by
                      rcases List.mem_map.mp hid with ⟨q, hq, hq1⟩
                      rcases List.mem_filter.mp hq with ⟨hqmem, hqact⟩
                      have hql : alookup q.1 t.timelines = some q.2 :=
                        alookup_eq_of_mem_nodup h_nodup hqmem
                      rw [hq1, halook] at hql
                      injection hql with hq2
                      rw [hq2]
                      exact hqact
                    refine ⟨timeline, halook, hactive, ?_, hcut, rfl, rfl, rfl⟩
                    intro tid htid
                    subst htid
                    simpa using hskip
                · simp at hf
      refine ⟨?_, ?_, ?_, ?_, hchar, rfl⟩
      · intro aid alsn
        rw [mem_gcCollectBranchpoints]
        constructor
        · rintro ⟨p, hp, hact, hanc, hlsn, hall⟩
          exact ⟨p.1, p.2, hp, hact, hanc, hlsn, hall⟩
        · rintro ⟨id, tl, hmem, hact, hanc, hlsn, hall⟩
          exact ⟨(id, tl), hmem, hact, hanc, hlsn, hall⟩
      · intro c hc
        obtain ⟨tl, -, -, -, -, hbp, -, -⟩ := hchar c hc
        rw [hbp]
        exact sorted_branchpointsFor c.timeline_id _
          (pairwise_gcCollectBranchpoints target t.timelines)
      · intro c hc l
        obtain ⟨tl, -, -, -, -, hbp, -, -⟩ := hchar c hc
        rw [hbp]
        exact mem_branchpointsFor c.timeline_id _ l
      · intro id tl halook hact hskip hcut
        rw [← hcalls]
        apply List.mem_filterMap.mpr
        refine ⟨id, List.mem_map.mpr
          ⟨(id, tl), List.mem_filter.mpr ⟨alookup_mem halook, hact⟩, rfl⟩, ?_⟩
        cases target with
        | none => simp [halook, hcut]
        | some tid =>
            have hid : id = tid := hskip tid rfl
            subst hid
            simp [halook, hcut]

/-- Witness for C5: on a concrete two-timeline tenant (timeline 2 branched from
timeline 1 at LSN 60), a GC iteration with horizon 10 records the branchpoint
`(1, 60)` and calls `update_gc_info` on timeline 1 with branchpoints `[60]`
and cutoff `100 - 10 = 90`. -/
theorem claim5_gc_planning_witness :
    (1, 60) ∈ gcCollectBranchpoints none tenantTreeW.timelines
    ∧ (⟨1, branchpointsFor 1 (gcCollectBranchpoints none tenantTreeW.timelines),
        90, 7⟩ : GcCall)
        ∈ [(⟨1, [60], 90, 7⟩ : GcCall), ⟨2, [], 190, 7⟩] :=
  ⟨((claim5_gc_planning tenantTreeW none 10 7 [⟨1, [60], 90, 7⟩, ⟨2, [], 190, 7⟩]
        tenantTreeW (by decide) rfl).1 1 60).mpr
      ⟨2, tlChildW, by decide, rfl, rfl, rfl, fun tid h => nomatch h⟩,
   (claim5_gc_planning tenantTreeW none 10 7 [⟨1, [60], 90, 7⟩, ⟨2, [], 190, 7⟩]
        tenantTreeW (by decide) rfl).2.2.2.1 1 tlRootW rfl rfl
      (fun tid h => nomatch h) (by decide)⟩

/-! ## C4: the lineage loader -/

/-- The invariant of the `later` index: every parked item is indexed under its
own ancestor. -/
def LaterInv (later : List (TimelineId × List TsItem)) : Prop :=
  ∀ q ∈ later, ∀ x ∈ q.2, x.2.ancestor_timeline = some q.1

lemma laterItems_assocRemove (k : TimelineId)
    (later : List (TimelineId × List TsItem)) (c : List TsItem)
    (l2 : List (TimelineId × List TsItem)) (h : assocRemove k later = (c, l2)) :
    (laterItems later).Perm (c ++ laterItems l2) := by
  induction later generalizing c l2 with
  | nil =>
      rw [assocRemove] at h
      injection h with h1 h2
      subst h1
      subst h2
      rfl
  | cons q rest ih =>
      rw [assocRemove] at h
      by_cases hq : q.1 = k
      · rw [if_pos hq] at h
        injection h with h1 h2
        subst h1
        subst h2
        simp [laterItems]
      · rw [if_neg hq] at h
        rcases hAR : assocRemove k rest with ⟨c2, r2⟩
        rw [hAR] at h
        injection h with h1 h2
        subst h1
        subst h2
        have hperm := ih c2 r2 hAR
        have e1 : laterItems (q :: rest) = q.2 ++ laterItems rest := by
          simp [laterItems]
        have e2 : laterItems (q :: r2) = q.2 ++ laterItems r2 := by
          simp [laterItems]
        rw [e1, e2]
        refine List.Perm.trans (List.Perm.append_left q.2 hperm) ?_
        rw [← List.append_assoc, ← List.append_assoc]
        exact List.Perm.append_right (laterItems r2) List.perm_append_comm

lemma assocRemove_snd_mem (k : TimelineId)
    (later : List (TimelineId × List TsItem)) (c : List TsItem)
    (l2 : List (TimelineId × List TsItem)) (h : assocRemove k later = (c, l2))
    (q : TimelineId × List TsItem) (hq : q ∈ l2) : q ∈ later := by
  induction later generalizing c l2 with
  | nil =>
      rw [assocRemove] at h
      injection h with h1 h2
      subst h2
      cases hq
  | cons e rest ih =>
      rw [assocRemove] at h
      by_cases he : e.1 = k
      · rw [if_pos he] at h
        injection h with h1 h2
        subst h2
        exact List.mem_cons_of_mem e hq
      · rw [if_neg he] at h
        rcases hAR : assocRemove k rest with ⟨c2, r2⟩
        rw [hAR] at h
        injection h with h1 h2
        subst h2
        rcases List.mem_cons.mp hq with rfl | hq2
        · exact List.mem_cons_self q rest
        · exact List.mem_cons_of_mem e (ih c2 r2 hAR hq2)

lemma assocRemove_fst_mem (k : TimelineId)
    (later : List (TimelineId × List TsItem)) (c : List TsItem)
    (l2 : List (TimelineId × List TsItem)) (h : assocRemove k later = (c, l2))
    (x : TsItem) (hx : x ∈ c) : ∃ chs, (k, chs) ∈ later ∧ x ∈ chs := by
  induction later generalizing c l2 with
  | nil =>
      rw [assocRemove] at h
      injection h with h1 h2
      subst h1
      cases hx
  | cons e rest ih =>
      rw [assocRemove] at h
      by_cases he : e.1 = k
      · rw [if_pos he] at h
        injection h with h1 h2
        subst h1
        refine ⟨e.2, ?_, hx⟩
        have : (k, e.2) = e := by
          rw [Prod.ext_iff]
          exact ⟨he.symm, rfl⟩
        rw [this]
        exact List.mem_cons_self e rest
      · rw [if_neg he] at h
        rcases hAR : assocRemove k rest with ⟨c2, r2⟩
        rw [hAR] at h
        injection h with h1 h2
        subst h1
        obtain ⟨chs, hmem, hxc⟩ := ih c2 r2 hAR hx
        exact ⟨chs, List.mem_cons_of_mem e hmem, hxc⟩

lemma laterItems_addChild (aid : TimelineId) (item : TsItem)
    (later : List (TimelineId × List TsItem)) :
    (laterItems (addChild aid item later)).Perm (item :: laterItems later) := by
  induction later with
  | nil => simp [addChild, laterItems]
  | cons q rest ih =>
      rw [addChild]
      by_cases hq : q.1 = aid
      · rw [if_pos hq]
        have e1 : laterItems ((q.1, q.2 ++ [item]) :: rest)
            = (q.2 ++ [item]) ++ laterItems rest := by simp [laterItems]
        have e2 : item :: laterItems (q :: rest)
            = (item :: q.2) ++ laterItems rest := by simp [laterItems]
        rw [e1, e2]
        exact List.Perm.append_right (laterItems rest)
          (List.perm_append_singleton item q.2)
      · rw [if_neg hq]
        have e1 : laterItems (q :: addChild aid item rest)
            = q.2 ++ laterItems (addChild aid item rest) := by simp [laterItems]
        have e2 : laterItems (q :: rest) = q.2 ++ laterItems rest := by
          simp [laterItems]
        rw [e1, e2]
        exact List.Perm.trans (List.Perm.append_left q.2 ih) List.perm_middle

lemma laterInv_addChild (aid : TimelineId) (item : TsItem)
    (later : List (TimelineId × List TsItem)) (hinv : LaterInv later)
    (hitem : item.2.ancestor_timeline = some aid) :
    LaterInv (addChild aid item later) := by
  induction later with
  | nil =>
      intro q hq x hx
      rw [addChild] at hq
      rcases List.mem_cons.mp hq with rfl | hq2
      · rcases List.mem_cons.mp hx with rfl | hx2
        · exact hitem
        · cases hx2
      · cases hq2
  | cons e rest ih =>
      intro q hq x hx
      rw [addChild] at hq
      by_cases he : e.1 = aid
      · rw [if_pos he] at hq
        rcases List.mem_cons.mp hq with rfl | hq2
        · rcases List.mem_append.mp hx with hx2 | hx2
          · exact hinv e (List.mem_cons_self e rest) x hx2
          · rcases List.mem_singleton.mp hx2 with rfl
            rw [hitem, he]
        · exact hinv q (List.mem_cons_of_mem e hq2) x hx
      · rw [if_neg he] at hq
        rcases List.mem_cons.mp hq with rfl | hq2
        · exact hinv q (List.mem_cons_self q rest) x hx
        · exact ih (fun r hr => hinv r (List.mem_cons_of_mem e hr)) q hq2 x hx

lemma treeSortPartition_spec (l : List TsItem) (now : List TsItem)
    (later : List (TimelineId × List TsItem)) (h : treeSortPartition l = (now, later)) :
    (now ++ laterItems later).Perm l
    ∧ (∀ x ∈ now, x.2.ancestor_timeline = none)
    ∧ LaterInv later := by
  induction l generalizing now later with
  | nil =>
      rw [treeSortPartition] at h
      injection h with h1 h2
      subst h1
      subst h2
      exact ⟨List.Perm.refl _, fun x hx => absurd hx (List.not_mem_nil x),
        fun q hq => absurd hq (List.not_mem_nil q)⟩
  | cons item rest ih =>
      rw [treeSortPartition] at h
      rcases hP : treeSortPartition rest with ⟨now2, later2⟩
      rw [hP] at h
      obtain ⟨hperm, hnow, hinv⟩ := ih now2 later2 hP
      cases hanc : item.2.ancestor_timeline with
      | some aid =>
          rw [hanc] at h
          injection h with h1 h2
          subst h1
          subst h2
          refine ⟨?_, hnow, laterInv_addChild aid item later2 hinv hanc⟩
          refine List.Perm.trans
            (List.Perm.append_left now2 (laterItems_addChild aid item later2)) ?_
          refine List.Perm.trans List.perm_middle ?_
          exact List.Perm.cons item hperm
      | none =>
          rw [hanc] at h
          injection h with h1 h2
          subst h1
          subst h2
          refine ⟨List.Perm.cons item hperm, ?_, hinv⟩
          intro x hx
          rcases List.mem_cons.mp hx with rfl | hx2
          · exact hanc
          · exact hnow x hx2

lemma treeSortDrain_perm (fuel : Nat) :
    ∀ (now : List TsItem) (later : List (TimelineId × List TsItem))
      (res : List TsItem),
      now.length + (laterItems later).length < fuel →
      treeSortDrain fuel now later = Except.ok res →
      res.Perm (now ++ laterItems later) := by
  induction fuel with
  | zero =>
      intro now later res hb _
      exact absurd hb (Nat.not_lt_zero _)
  | succ fuel ih =>
      intro now later res hb hok
      cases now with
      | nil =>
          rw [treeSortDrain] at hok
          by_cases hl : later.isEmpty
          · rw [if_pos hl] at hok
            injection hok with h1
            subst h1
            have hl2 : later = [] := List.isEmpty_iff.mp hl
            subst hl2
            exact List.Perm.refl _
          · rw [if_neg hl] at hok
            simp at hok
      | cons item rest =>
          rw [treeSortDrain] at hok
          rcases hAR : assocRemove item.1 later with ⟨children, later2⟩
          rw [hAR] at hok
          dsimp only at hok
          have hlen : (laterItems later).length
              = children.length + (laterItems later2).length := by
            have hpl := (laterItems_assocRemove item.1 later children later2 hAR).length_eq
            simpa [List.length_append] using hpl
          cases hrec : treeSortDrain fuel (children ++ rest) later2 with
          | error e =>
              rw [hrec] at hok
              simp at hok
          | ok res2 =>
              rw [hrec] at hok
              injection hok with h1
              subst h1
              have hb2 : (children ++ rest).length + (laterItems later2).length
                  < fuel := by
                rw [List.length_append]
                rw [List.length_cons] at hb
                omega
              have hp2 := ih (children ++ rest) later2 res2 hb2 hrec
              show (item :: res2).Perm (item :: (rest ++ laterItems later))
              refine List.Perm.cons item (hp2.trans ?_)
              refine List.Perm.trans
                (List.Perm.append_right (laterItems later2) List.perm_append_comm) ?_
              rw [List.append_assoc]
              exact List.Perm.append_left rest
                (laterItems_assocRemove item.1 later children later2 hAR).symm

lemma treeSortDrain_af (fuel : Nat) :
    ∀ (now : List TsItem) (later : List (TimelineId × List TsItem))
      (res : List TsItem) (seen : List TimelineId),
      now.length + (laterItems later).length < fuel →
      (∀ x ∈ now, ∀ aid : TimelineId, x.2.ancestor_timeline = some aid →
        aid ∈ seen) →
      LaterInv later →
      treeSortDrain fuel now later = Except.ok res →
      ancestorsFirstFrom seen res = true := by
  induction fuel with
  | zero =>
      intro _ _ _ _ hb _ _ _
      exact absurd hb (Nat.not_lt_zero _)
  | succ fuel ih =>
      intro now later res seen hb hnow hinv hok
      cases now with
      | nil =>
          rw [treeSortDrain] at hok
          by_cases hl : later.isEmpty
          · rw [if_pos hl] at hok
            injection hok with h1
            subst h1
            rfl
          · rw [if_neg hl] at hok
            simp at hok
      | cons item rest =>
          rw [treeSortDrain] at hok
          rcases hAR : assocRemove item.1 later with ⟨children, later2⟩
          rw [hAR] at hok
          dsimp only at hok
          have hlen : (laterItems later).length
              = children.length + (laterItems later2).length := by
            have hpl := (laterItems_assocRemove item.1 later children later2 hAR).length_eq
            simpa [List.length_append] using hpl
          cases hrec : treeSortDrain fuel (children ++ rest) later2 with
          | error e =>
              rw [hrec] at hok
              simp at hok
          | ok res2 =>
              rw [hrec] at hok
              injection hok with h1
              subst h1
              rw [ancestorsFirstFrom, Bool.and_eq_true]
              constructor
              · cases hanc : item.2.ancestor_timeline with
                | none => simp [hanc]
                | some aid =>
                    simp only [hanc]
                    exact decide_eq_true
                      (hnow item (List.mem_cons_self item rest) aid hanc)
              · refine ih (children ++ rest) later2 res2 (item.1 :: seen) ?_ ?_ ?_ hrec
                · rw [List.length_append]
                  rw [List.length_cons] at hb
                  omega
                · intro x hx aid hanc2
                  rcases List.mem_append.mp hx with hx2 | hx2
                  · obtain ⟨chs, hchs, hxc⟩ :=
                      assocRemove_fst_mem item.1 later children later2 hAR x hx2
                    have hxa := hinv (item.1, chs) hchs x hxc
                    rw [hanc2] at hxa
                    injection hxa with h3
                    rw [h3]
                    exact List.mem_cons_self item.1 seen
                  · exact List.mem_cons_of_mem item.1
                      (hnow x (List.mem_cons_of_mem item hx2) aid hanc2)
                · intro q hq x hx
                  exact hinv q (assocRemove_snd_mem item.1 later children later2 hAR q hq)
                    x hx

lemma treeSortDrain_err (fuel : Nat) :
    ∀ (now : List TsItem) (later : List (TimelineId × List TsItem)),
      (∃ res, treeSortDrain fuel now later = Except.ok res) ∨
        treeSortDrain fuel now later = Except.error TenantError.OrphanTimelines := by
  induction fuel with
  | zero => intro now later; exact Or.inr rfl
  | succ fuel ih =>
      intro now later
      cases now with
      | nil =>
          by_cases hl : later.isEmpty
          · exact Or.inl ⟨[], by rw [treeSortDrain, if_pos hl]⟩
          · exact Or.inr (by rw [treeSortDrain, if_neg hl])
      | cons item rest =>
          rcases hAR : assocRemove item.1 later with ⟨children, later2⟩
          rcases ih (children ++ rest) later2 with ⟨res, hres⟩ | herr
          · exact Or.inl ⟨item :: res, by simp only [treeSortDrain, hAR, hres]⟩
          · exact Or.inr (by simp only [treeSortDrain, hAR, herr])

lemma ancestorsFirstFrom_mem (seen : List TimelineId) (l : List TsItem)
    (h : ancestorsFirstFrom seen l = true) (c : TimelineId) (md : TimelineMetadata)
    (hmem : (c, md) ∈ l) (p : TimelineId) (hanc : md.ancestor_timeline = some p) :
    p ∈ seen ∨ p ∈ l.map Prod.fst := by
  induction l generalizing seen with
  | nil => cases hmem
  | cons item rest ih =>
      rw [ancestorsFirstFrom, Bool.and_eq_true] at h
      obtain ⟨h1, h2⟩ := h
      rcases List.mem_cons.mp hmem with heq | hmem2
      · rw [← heq] at h1
        simp only [hanc] at h1
        exact Or.inl (of_decide_eq_true h1)
      · rcases ih (item.1 :: seen) h2 hmem2 with hseen | hrest
        · rcases List.mem_cons.mp hseen with rfl | hs2
          · exact Or.inr (by simp)
          · exact Or.inl hs2
        · exact Or.inr (List.mem_cons_of_mem item.1 hrest)

/-- C4: whenever `tree_sort_timelines` succeeds on an input map, the produced
vector is a permutation of the input in which every timeline whose
`ancestor_timeline` is set appears after that ancestor; and whenever some
timeline's `ancestor_timeline` names an id absent from the input, the sort
fails with the orphan-timelines error instead of producing an order. -/
theorem claim4_tree_sort_timelines (input : List TsItem) :
    (∀ res, tree_sort_timelines input = Except.ok res →
        res.Perm input ∧ ancestorsFirstFrom [] res = true)
    ∧ (∀ id md aid, (id, md) ∈ input → md.ancestor_timeline = some aid →
        aid ∉ input.map Prod.fst →
        tree_sort_timelines input = Except.error TenantError.OrphanTimelines) := by
  have hpart1 : ∀ res, tree_sort_timelines input = Except.ok res →
      res.Perm input ∧ ancestorsFirstFrom [] res = true := by
    intro res hok
    unfold tree_sort_timelines at hok
    rcases hP : treeSortPartition input with ⟨now, later⟩
    rw [hP] at hok
    dsimp only at hok
    obtain ⟨hperm0, hnow, hinv⟩ := treeSortPartition_spec input now later hP
    have hb : now.length + (laterItems later).length < input.length + 1 := by
      have hlen := hperm0.length_eq
      rw [List.length_append] at hlen
      omega
    constructor
    · exact (treeSortDrain_perm (input.length + 1) now later res hb hok).trans hperm0
    · refine treeSortDrain_af (input.length + 1) now later res [] hb ?_ hinv hok
      intro x hx aid hanc
      rw [hnow x hx] at hanc
      cases hanc
  refine ⟨hpart1, ?_⟩
  intro id md aid hmem hanc hnin
  have htot : (∃ res, tree_sort_timelines input = Except.ok res) ∨
      tree_sort_timelines input = Except.error TenantError.OrphanTimelines := by
    unfold tree_sort_timelines
    rcases hP : treeSortPartition input with ⟨now, later⟩
    dsimp only
    exact treeSortDrain_err (input.length + 1) now later
  rcases htot with ⟨res, hok⟩ | herr
  · exfalso
    obtain ⟨hperm, haf⟩ := hpart1 res hok
    have hmem2 : (id, md) ∈ res := hperm.mem_iff.mpr hmem
    rcases ancestorsFirstFrom_mem [] res haf id md hmem2 aid hanc with hs | hr
    · cases hs
    · exact hnin ((hperm.map Prod.fst).mem_iff.mp hr)
  · exact herr

def mdRootW : TimelineMetadata := ⟨0, none, none, 0, 0, 0, 14⟩

def mdChildW : TimelineMetadata := ⟨16, none, some 1, 16, 0, 0, 14⟩

def mdOrphanW : TimelineMetadata := ⟨16, none, some 9, 16, 0, 0, 14⟩

/-- Witness for C4: a concrete parent/child input sorts into an order that is a
permutation with ancestors first, and a concrete input whose ancestor id 9 is
missing fails with the orphan error. -/
theorem claim4_tree_sort_timelines_witness :
    (([(1, mdRootW), (2, mdChildW)] : List TsItem).Perm [(1, mdRootW), (2, mdChildW)]
      ∧ ancestorsFirstFrom [] [(1, mdRootW), (2, mdChildW)] = true)
    ∧ tree_sort_timelines [(2, mdOrphanW), (1, mdRootW)]
        = Except.error TenantError.OrphanTimelines :=
  ⟨(claim4_tree_sort_timelines [(1, mdRootW), (2, mdChildW)]).1
      [(1, mdRootW), (2, mdChildW)] rfl,
   (claim4_tree_sort_timelines [(2, mdOrphanW), (1, mdRootW)]).2 2 mdOrphanW 9
      (by decide) rfl (by decide)⟩
